import Mathlib

/-
  Verification development for AWA-python-packager (AWA_split_dates.py).

  The source program partitions time-series financial records into
  calendar-period buckets between an inception date and an end date.
  This file gives a shallow embedding of its date arithmetic
  (get_period_end_date, get_next_period_end), its period-sequencing loop
  (create_folder_structure), its record filtering (filter_and_save_csv),
  and the orchestration order of main, and proves properties about them.

  Dates are embedded as (year, month, day) triples of naturals; the Python
  datetime class only constructs valid calendar dates, so theorems carry a
  Date.Valid hypothesis where the source relies on that invariant.
  Comparison of datetime values is lexicographic on (year, month, day).
-/

namespace AWA

/-- Gregorian leap-year test, as implemented by the Python datetime module. -/
def isLeap (y : Nat) : Bool := (y % 4 == 0 && y % 100 != 0) || y % 400 == 0

/-- Number of days of month m, with the leap flag of the year given as a Bool. -/
def daysInMonthB (L : Bool) (m : Nat) : Nat :=
  if m = 2 then (if L then 29 else 28)
  else if m = 4 ∨ m = 6 ∨ m = 9 ∨ m = 11 then 30
  else 31

/-- Number of days of month m of year y. -/
def daysInMonth (y m : Nat) : Nat := daysInMonthB (isLeap y) m

/-- A calendar date, as carried by Python datetime values (time parts unused). -/
structure Date where
  year : Nat
  month : Nat
  day : Nat
deriving DecidableEq

/-- The invariant the Python datetime constructor enforces. -/
def Date.Valid (d : Date) : Prop :=
  1 ≤ d.year ∧ 1 ≤ d.month ∧ d.month ≤ 12 ∧ 1 ≤ d.day ∧ d.day ≤ daysInMonth d.year d.month

instance (d : Date) : Decidable d.Valid := by
  unfold Date.Valid; infer_instance

/-- Lexicographic order on dates: the comparison Python performs on datetimes. -/
def dateLe (a b : Date) : Prop :=
  a.year < b.year ∨ (a.year = b.year ∧
    (a.month < b.month ∨ (a.month = b.month ∧ a.day ≤ b.day)))

/-- Strict lexicographic order on dates. -/
def dateLt (a b : Date) : Prop :=
  a.year < b.year ∨ (a.year = b.year ∧
    (a.month < b.month ∨ (a.month = b.month ∧ a.day < b.day)))

instance (a b : Date) : Decidable (dateLe a b) := by
  unfold dateLe; infer_instance

instance (a b : Date) : Decidable (dateLt a b) := by
  unfold dateLt; infer_instance

/-- Successor day: the effect of adding timedelta(days=1) to a valid date. -/
def nextDay (d : Date) : Date :=
  if d.day < daysInMonth d.year d.month then ⟨d.year, d.month, d.day + 1⟩
  else if d.month < 12 then ⟨d.year, d.month + 1, 1⟩
  else ⟨d.year + 1, 1, 1⟩

/-- Predecessor day: the effect of subtracting timedelta(days=1) from a valid date. -/
def prevDay (d : Date) : Date :=
  if 2 ≤ d.day then ⟨d.year, d.month, d.day - 1⟩
  else if 2 ≤ d.month then ⟨d.year, d.month - 1, daysInMonth d.year (d.month - 1)⟩
  else ⟨d.year - 1, 12, 31⟩

/-- Adding timedelta(days=n) to a date. -/
def addDays : Nat → Date → Date
  | 0, d => d
  | n + 1, d => addDays n (nextDay d)

/-- Subtracting timedelta(days=n) from a date. -/
def subDays : Nat → Date → Date
  | 0, d => d
  | n + 1, d => subDays n (prevDay d)

/-- Adding relativedelta(months=k) to a date: advance the month, keep the
day-of-month, clamping it to the length of the target month. -/
def addMonths (k : Nat) (d : Date) : Date :=
  let t := d.month - 1 + k
  let y := d.year + t / 12
  let m := t % 12 + 1
  ⟨y, m, min d.day (daysInMonth y m)⟩

/-- Adding relativedelta(years=k) to a date, clamping Feb 29 to Feb 28. -/
def addYears (k : Nat) (d : Date) : Date :=
  ⟨d.year + k, d.month, min d.day (daysInMonth (d.year + k) d.month)⟩

/-- The four split frequencies the program accepts. -/
inductive Freq where
  | daily
  | monthly
  | quarterly
  | annually
deriving DecidableEq

/-- Embedding of get_period_end_date: the last day of the period containing
start_date. The monthly branch reproduces the source trick replace(day=28),
plus 4 days, minus that many days as the resulting day-of-month. -/
def get_period_end_date (start_date : Date) (frequency : Freq) : Date :=
  match frequency with
  | .daily => start_date
  | .monthly =>
    let next_month := addDays 4 ⟨start_date.year, start_date.month, 28⟩
    subDays next_month.day next_month
  | .quarterly =>
    let quarter := (start_date.month - 1) / 3 + 1
    if quarter = 1 then ⟨start_date.year, 3, 31⟩
    else if quarter = 2 then ⟨start_date.year, 6, 30⟩
    else if quarter = 3 then ⟨start_date.year, 9, 30⟩
    else ⟨start_date.year, 12, 31⟩
  | .annually => ⟨start_date.year, 12, 31⟩

/-- Embedding of get_next_period_end: the anchor from which the next period
is computed. -/
def get_next_period_end (current_date : Date) (frequency : Freq) : Date :=
  match frequency with
  | .daily => addDays 1 current_date
  | .monthly => addMonths 1 current_date
  | .quarterly => addMonths 3 current_date
  | .annually => addYears 1 current_date

/-- The while-loop of create_folder_structure, with explicit fuel. The Python
loop has no fuel; a none result marks fuel exhaustion and is proved
unreachable for sufficient fuel. Each iteration mirrors the source: compute
the period end, clamp it to end_date, record it, stop when it reaches
end_date, otherwise advance the anchor. -/
def seqLoop (fuel : Nat) (current_date end_date : Date) (frequency : Freq) :
    Option (List Date) :=
  if dateLe current_date end_date then
    match fuel with
    | 0 => none
    | fuel' + 1 =>
      let period_end := get_period_end_date current_date frequency
      let period_end := if dateLt end_date period_end then end_date else period_end
      if dateLe end_date period_end then some [period_end]
      else
        match seqLoop fuel' (get_next_period_end period_end frequency) end_date frequency with
        | none => none
        | some rest => some (period_end :: rest)
  else some []

/-- Day-count measure on dates: days before year y (years 0..y-1), in
closed form. -/
def daysBeforeYear (y : Nat) : Nat :=
  365 * y + ((y + 3) / 4 - (y + 99) / 100 + (y + 399) / 400)

/-- Days of year y strictly before month m (months 1..m-1). -/
def daysBeforeMonthB (L : Bool) : Nat → Nat
  | 0 => 0
  | m + 1 => daysBeforeMonthB L m + (if m = 0 then 0 else daysInMonthB L m)

/-- Number of days of year y. -/
def daysInYear (y : Nat) : Nat := if isLeap y then 366 else 365

/-- Linear day-count measure on dates; strictly monotone in the
lexicographic order on valid dates. -/
def Date.ord (d : Date) : Nat :=
  daysBeforeYear d.year + daysBeforeMonthB (isLeap d.year) d.month + d.day

/-- Embedding of create_folder_structure: the returned list of period folder
dates (their YYYY-MM-DD names are these dates). The fuel is one more than
the number of days in the inclusive range, proved sufficient below. -/
def create_folder_structure (inception_date end_date : Date) (frequency : Freq) :
    Option (List Date) :=
  seqLoop (end_date.ord + 1 - inception_date.ord) inception_date end_date frequency

/-- Digit value of a character, if it is a decimal digit. -/
def charDigit (c : Char) : Option Nat :=
  if c.toNat < 48 then none else if 57 < c.toNat then none else some (c.toNat - 48)

/-- Decimal number denoted by a nonempty list of digit characters. -/
def digitsToNat (cs : List Char) : Option Nat :=
  match cs with
  | [] => none
  | _ =>
    cs.foldl (fun acc c =>
      match acc, charDigit c with
      | some a, some d => some (10 * a + d)
      | _, _ => none) (some 0)

/-- Splitting a character list at every slash. -/
def splitOnSlash (cs : List Char) : List (List Char) :=
  match cs with
  | [] => [[]]
  | c :: rest =>
    let r := splitOnSlash rest
    if c = '/' then [] :: r
    else
      match r with
      | [] => [[c]]
      | g :: gs => (c :: g) :: gs

/-- Parsing a date field in the fixed external MM/DD/YYYY representation, as
pd.to_datetime with that format does: three slash-separated numeric fields
forming a real calendar date. -/
def parseMMDDYYYY (cs : List Char) : Option Date :=
  match splitOnSlash cs with
  | [ms, ds, ys] =>
    match digitsToNat ms, digitsToNat ds, digitsToNat ys with
    | some m, some dd, some y =>
      if 1 ≤ y ∧ 1 ≤ m ∧ m ≤ 12 ∧ 1 ≤ dd ∧ dd ≤ daysInMonth y m then some ⟨y, m, dd⟩
      else none
    | _, _, _ => none
  | _ => none

/-- A row of one of the two tabular inputs: the designated date field (raw
MM/DD/YYYY characters) plus all other fields, passed through unchanged. -/
structure Row where
  dateChars : List Char
  fields : List String
deriving DecidableEq

/-- The parsed date field of a row. -/
def rowDate (r : Row) : Option Date := parseMMDDYYYY r.dateChars

/-- The inclusion predicate of the record filter: the row date lies in the
inclusive range from lo to hi. -/
def inRange (lo hi : Date) (r : Row) : Bool :=
  match rowDate r with
  | some dt => decide (dateLe lo dt) && decide (dateLe dt hi)
  | none => false

/-- Date filtering of one record set, as filter_and_save_csv performs it:
pd.to_datetime converts every date field first (any unparseable field raises,
modelled as none), then rows inside the inclusive range are kept. -/
def filterRows (rows : List Row) (lo hi : Date) : Option (List Row) :=
  if rows.all (fun r => (rowDate r).isSome) then some (rows.filter (inRange lo hi))
  else none

/-- Embedding of the filtering portion of filter_and_save_csv, applied to the
holdings and transactions record sets for one period folder. -/
def filter_and_save_csv (df_ho df_tr : List Row) (inception_date folder_date : Date) :
    Option (List Row × List Row) :=
  match filterRows df_ho inception_date folder_date,
        filterRows df_tr inception_date folder_date with
  | some ho, some tr => some (ho, tr)
  | _, _ => none

/-- Abstract state of the filesystem effects main performs: presence of the
two source CSV files, their loaded contents, the period folders created, the
per-period perf outputs written, and the folders that received copies of the
auxiliary subfolders. -/
structure FileSystem where
  holdingsPresent : Bool
  transactionsPresent : Bool
  holdingsRows : List Row
  transactionsRows : List Row
  createdFolders : List Date
  writtenPerf : List (Date × List Row × List Row)
  auxCopied : List Date
deriving DecidableEq

/-- The per-folder loop of main: for each period folder, filter both record
sets from the inception date to the folder date and write the results; a row
whose date field fails to parse raises, aborting the loop with the outputs
written so far kept. -/
def runLoop (df_ho df_tr : List Row) (inception_date : Date) :
    List Date → FileSystem → Option String × FileSystem
  | [], fs => (none, fs)
  | p :: rest, fs =>
    match filter_and_save_csv df_ho df_tr inception_date p with
    | none => (some "time data does not match format", fs)
    | some (ho, tr) =>
      runLoop df_ho df_tr inception_date rest
        { fs with writtenPerf := fs.writtenPerf ++ [(p, ho, tr)] }

/-- Embedding of main after user input is resolved, in source order: create
the period folder structure, then check that Holdings.csv and
Transactions.csv exist (raising FileNotFoundError if not), then filter and
write per period, then copy the auxiliary folders into every period folder.
The outcome is some message when an exception was caught, none on success;
a none result of the whole function marks fuel exhaustion of the embedded
sequencer loop and is unreachable for valid dates. -/
def runMain (inception_date end_date : Date) (frequency : Freq) (fs : FileSystem) :
    Option (Option String × FileSystem) :=
  match create_folder_structure inception_date end_date frequency with
  | none => none
  | some folders =>
    let fs1 := { fs with createdFolders := fs.createdFolders ++ folders }
    if !fs1.holdingsPresent then some (some "Holdings.csv not found", fs1)
    else if !fs1.transactionsPresent then some (some "Transactions.csv not found", fs1)
    else
      match runLoop fs1.holdingsRows fs1.transactionsRows inception_date folders fs1 with
      | (some e, fs2) => some (some e, fs2)
      | (none, fs2) => some (none, { fs2 with auxCopied := fs2.auxCopied ++ folders })

/-- A dataframe cell row: the original row plus the appended datetime helper
column (none before pd.to_datetime fills it). -/
abbrev DfTable : Type := List (Row × Option Date)

/-- A loaded dataframe: no datetime helper column yet. -/
def loadTable (rows : List Row) : DfTable := rows.map (fun r => (r, none))

/-- The in-place assignment of the datetime helper column that
filter_and_save_csv performs on its working copy. -/
def withDatetime (t : DfTable) : DfTable := t.map (fun c => (c.1, rowDate c.1))

/-- The range test applied to a dataframe cell through its datetime helper
column. -/
def keepCell (inception_date folder_date : Date) (c : Row × Option Date) : Bool :=
  match c.2 with
  | some dt => decide (dateLe inception_date dt) && decide (dateLe dt folder_date)
  | none => false

/-- Heap-level embedding of filter_and_save_csv, making aliasing explicit: a
heap of dataframes addressed by index; the function deepcopies the two source
dataframes to fresh indices, mutates only the copies (datetime column
assignment), and computes the filtered outputs from the copies, dropping the
helper column. -/
def filter_and_save_csv_st (h : List DfTable) (hoRef trRef : Nat)
    (inception_date folder_date : Date) : List DfTable × (List Row × List Row) :=
  let hoCopy := h.length
  let h1 := h ++ [h.getD hoRef []]
  let trCopy := h1.length
  let h2 := h1 ++ [h1.getD trRef []]
  let h3 := h2.set hoCopy (withDatetime (h2.getD hoCopy []))
  let h4 := h3.set trCopy (withDatetime (h3.getD trCopy []))
  let ho_out := ((h4.getD hoCopy []).filter (keepCell inception_date folder_date)).map
    (fun c => c.1)
  let tr_out := ((h4.getD trCopy []).filter (keepCell inception_date folder_date)).map
    (fun c => c.1)
  (h4, (ho_out, tr_out))

/-! Order lemmas for the lexicographic datetime comparison. -/

theorem dateLe_refl (d : Date) : dateLe d d := by
  unfold dateLe; omega

theorem dateLe_of_not_dateLt {a b : Date} (h : ¬ dateLt a b) : dateLe b a := by
  unfold dateLt at h; unfold dateLe; omega

theorem dateLt_of_not_dateLe {a b : Date} (h : ¬ dateLe a b) : dateLt b a := by
  unfold dateLe at h; unfold dateLt; omega

theorem dateLe_of_dateLt {a b : Date} (h : dateLt a b) : dateLe a b := by
  unfold dateLt at h; unfold dateLe; omega

theorem dateLt_trans {a b c : Date} (h1 : dateLt a b) (h2 : dateLt b c) : dateLt a c := by
  unfold dateLt at *; omega

theorem dateLt_of_lt_of_le {a b c : Date} (h1 : dateLt a b) (h2 : dateLe b c) :
    dateLt a c := by
  unfold dateLt at *; unfold dateLe at h2; omega

theorem dateLt_of_le_of_lt {a b c : Date} (h1 : dateLe a b) (h2 : dateLt b c) :
    dateLt a c := by
  unfold dateLt at *; unfold dateLe at h1; omega

theorem date_eq_of_le_of_not_lt {a b : Date} (h1 : dateLe a b) (h2 : ¬ dateLt a b) :
    a = b := by
  obtain ⟨y1, m1, d1⟩ := a
  obtain ⟨y2, m2, d2⟩ := b
  unfold dateLe at h1
  unfold dateLt at h2
  simp only [Date.mk.injEq]
  simp only at h1 h2
  omega

/-! Day-count bounds used to relate the lexicographic order to the linear
day-count measure. -/

theorem daysInMonthB_le (L : Bool) (m : Nat) : daysInMonthB L m ≤ 31 := by
  unfold daysInMonthB; split_ifs <;> omega

theorem le_daysInMonthB (L : Bool) (m : Nat) : 28 ≤ daysInMonthB L m := by
  unfold daysInMonthB; split_ifs <;> omega

theorem daysBeforeMonthB_step : ∀ L : Bool, ∀ m1, m1 < 13 → ∀ m2, m2 < 13 →
    1 ≤ m1 → m1 < m2 →
    daysBeforeMonthB L m1 + daysInMonthB L m1 ≤ daysBeforeMonthB L m2 := by decide

theorem daysBeforeMonthB_day_le : ∀ L : Bool, ∀ m, m < 13 → 1 ≤ m → ∀ dd, dd < 32 →
    dd ≤ daysInMonthB L m →
    daysBeforeMonthB L m + dd ≤ (if L then 366 else 365) := by decide

theorem daysBeforeYear_succ (y : Nat) :
    daysBeforeYear (y + 1) = daysBeforeYear y + daysInYear y := by
  by_cases h4 : y % 4 = 0 <;> by_cases h100 : y % 100 = 0 <;> by_cases h400 : y % 400 = 0 <;>
    simp [daysBeforeYear, daysInYear, isLeap, h4, h100, h400] <;> omega

theorem daysBeforeYear_mono {y1 y2 : Nat} (h : y1 ≤ y2) :
    daysBeforeYear y1 ≤ daysBeforeYear y2 := by
  unfold daysBeforeYear; omega

/-- The day-count measure is strictly monotone in the lexicographic order,
on valid dates. -/
theorem ord_lt_ord {a b : Date} (ha : a.Valid) (hb : b.Valid) (h : dateLt a b) :
    a.ord < b.ord := by
  obtain ⟨hya, hma1, hma2, hda1, hda2⟩ := ha
  obtain ⟨hyb, hmb1, hmb2, hdb1, hdb2⟩ := hb
  unfold daysInMonth at hda2 hdb2
  unfold Date.ord
  unfold dateLt at h
  have hla := daysInMonthB_le (isLeap a.year) a.month
  have hlb := daysInMonthB_le (isLeap b.year) b.month
  rcases h with hy | ⟨hy, hm | ⟨hm, hd⟩⟩
  · have h1 : daysBeforeMonthB (isLeap a.year) a.month + a.day ≤
        (if isLeap a.year then 366 else 365) :=
      daysBeforeMonthB_day_le (isLeap a.year) a.month (by omega) hma1 a.day (by omega) hda2
    have h2 := daysBeforeYear_succ a.year
    have h3 : daysBeforeYear (a.year + 1) ≤ daysBeforeYear b.year :=
      daysBeforeYear_mono (by omega)
    have h4 : daysInYear a.year = if isLeap a.year then 366 else 365 := rfl
    rw [h4] at h2
    omega
  · rw [hy]
    rw [hy] at hda2
    have h1 := daysBeforeMonthB_step (isLeap b.year) a.month (by omega) b.month (by omega)
      hma1 hm
    omega
  · rw [hy, hm]
    omega

theorem ord_le_ord {a b : Date} (ha : a.Valid) (hb : b.Valid) (h : dateLe a b) :
    a.ord ≤ b.ord := by
  by_cases hlt : dateLt a b
  · exact Nat.le_of_lt (ord_lt_ord ha hb hlt)
  · rw [date_eq_of_le_of_not_lt h hlt]

/-! Validity preservation and growth of the date-arithmetic steps. -/

theorem nextDay_valid {d : Date} (h : d.Valid) : (nextDay d).Valid := by
  obtain ⟨h1, h2, h3, h4, h5⟩ := h
  have b1 := le_daysInMonthB (isLeap d.year) (d.month + 1)
  have b2 := le_daysInMonthB (isLeap (d.year + 1)) 1
  unfold nextDay
  split_ifs with hA hB <;>
    simp only [Date.Valid, daysInMonth] at hA h5 b1 b2 ⊢ <;> omega

theorem nextDay_lt (d : Date) : dateLt d (nextDay d) := by
  unfold nextDay
  split_ifs with hA hB <;> simp [dateLt]

theorem addMonths_valid_lt {d : Date} (k : Nat) (h : d.Valid) (hk : 1 ≤ k) :
    (addMonths k d).Valid ∧ dateLt d (addMonths k d) := by
  obtain ⟨h1, h2, h3, h4, h5⟩ := h
  have b1 := le_daysInMonthB (isLeap (d.year + (d.month - 1 + k) / 12))
    ((d.month - 1 + k) % 12 + 1)
  unfold addMonths
  constructor
  · simp only [Date.Valid, daysInMonth] at h5 b1 ⊢
    refine ⟨by omega, by omega, by omega, ?_, Nat.min_le_right _ _⟩
    omega
  · simp only [dateLt]
    omega

theorem addYears_valid_lt {d : Date} (k : Nat) (h : d.Valid) (hk : 1 ≤ k) :
    (addYears k d).Valid ∧ dateLt d (addYears k d) := by
  obtain ⟨h1, h2, h3, h4, h5⟩ := h
  have b1 := le_daysInMonthB (isLeap (d.year + k)) d.month
  unfold addYears
  constructor
  · simp only [Date.Valid, daysInMonth] at h5 b1 ⊢
    refine ⟨by omega, by omega, by omega, ?_, Nat.min_le_right _ _⟩
    omega
  · simp only [dateLt]
    omega

theorem addDays4 (d : Date) : addDays 4 d = nextDay (nextDay (nextDay (nextDay d))) := rfl

theorem subDays1 (d : Date) : subDays 1 d = prevDay d := rfl

theorem subDays2 (d : Date) : subDays 2 d = prevDay (prevDay d) := rfl

theorem subDays3 (d : Date) : subDays 3 d = prevDay (prevDay (prevDay d)) := rfl

theorem subDays4 (d : Date) : subDays 4 d = prevDay (prevDay (prevDay (prevDay d))) := rfl

/-- The monthly branch of get_period_end_date (replace day by 28, add 4 days,
subtract the resulting day-of-month) lands on the last calendar day of the
month of the input date, for every valid date, leap Februaries included. -/
theorem get_period_end_date_monthly {d : Date} (h : d.Valid) :
    get_period_end_date d Freq.monthly = ⟨d.year, d.month, daysInMonth d.year d.month⟩ := by
  obtain ⟨y, m, dd⟩ := d
  obtain ⟨h1, h2, h3, h4, h5⟩ := h
  replace h2 : 1 ≤ m := h2
  replace h3 : m ≤ 12 := h3
  interval_cases m <;> cases hL : isLeap y <;>
    simp [get_period_end_date, addDays4, subDays1, subDays2, subDays3, subDays4,
      nextDay, prevDay, daysInMonth, daysInMonthB, hL]

/-- The quarterly branch of get_period_end_date returns the calendar end of
the quarter of the input month, in the same year. -/
theorem get_period_end_date_quarterly {d : Date} (h : d.Valid) :
    get_period_end_date d Freq.quarterly =
      (if d.month ≤ 3 then ⟨d.year, 3, 31⟩
       else if d.month ≤ 6 then ⟨d.year, 6, 30⟩
       else if d.month ≤ 9 then ⟨d.year, 9, 30⟩
       else ⟨d.year, 12, 31⟩) := by
  obtain ⟨h1, h2, h3, h4, h5⟩ := h
  simp only [get_period_end_date]
  split_ifs <;> first | rfl | (exfalso; omega)

theorem get_period_end_date_valid_ge {d : Date} (f : Freq) (h : d.Valid) :
    (get_period_end_date d f).Valid ∧ dateLe d (get_period_end_date d f) := by
  have hv := h
  obtain ⟨h1, h2, h3, h4, h5⟩ := hv
  have hdim := daysInMonthB_le (isLeap d.year) d.month
  have hdim2 := le_daysInMonthB (isLeap d.year) d.month
  have e2 : daysInMonthB (isLeap d.year) 3 = 31 := by simp [daysInMonthB]
  have e3 : daysInMonthB (isLeap d.year) 6 = 30 := by simp [daysInMonthB]
  have e4 : daysInMonthB (isLeap d.year) 9 = 30 := by simp [daysInMonthB]
  have e5 : daysInMonthB (isLeap d.year) 12 = 31 := by simp [daysInMonthB]
  cases f
  · exact ⟨h, dateLe_refl d⟩
  · rw [get_period_end_date_monthly h]
    constructor
    · simp only [Date.Valid, daysInMonth] at h5 ⊢
      refine ⟨h1, h2, h3, by omega, by omega⟩
    · simp [dateLe, daysInMonth] at h5 ⊢
      omega
  · rw [get_period_end_date_quarterly h]
    split_ifs with q1 q2 q3
    · constructor
      · simp only [Date.Valid, daysInMonth] at h5 ⊢
        refine ⟨h1, by omega, by omega, by omega, by omega⟩
      · simp [dateLe, daysInMonth] at h5 ⊢
        omega
    · constructor
      · simp only [Date.Valid, daysInMonth] at h5 ⊢
        refine ⟨h1, by omega, by omega, by omega, by omega⟩
      · simp [dateLe, daysInMonth] at h5 ⊢
        rcases Nat.lt_or_ge d.month 6 with hm | hm
        · omega
        · have hm6 : d.month = 6 := by omega
          rw [hm6] at h5
          omega
    · constructor
      · simp only [Date.Valid, daysInMonth] at h5 ⊢
        refine ⟨h1, by omega, by omega, by omega, by omega⟩
      · simp [dateLe, daysInMonth] at h5 ⊢
        rcases Nat.lt_or_ge d.month 9 with hm | hm
        · omega
        · have hm9 : d.month = 9 := by omega
          rw [hm9] at h5
          omega
    · constructor
      · simp only [Date.Valid, daysInMonth] at h5 ⊢
        refine ⟨h1, by omega, by omega, by omega, by omega⟩
      · simp [dateLe, daysInMonth] at h5 ⊢
        omega
  · show (Date.mk d.year 12 31).Valid ∧ dateLe d ⟨d.year, 12, 31⟩
    constructor
    · simp only [Date.Valid, daysInMonth] at h5 ⊢
      refine ⟨h1, by omega, by omega, by omega, by omega⟩
    · simp [dateLe, daysInMonth] at h5 ⊢
      omega

theorem get_next_period_end_valid_lt {d : Date} (f : Freq) (h : d.Valid) :
    (get_next_period_end d f).Valid ∧ dateLt d (get_next_period_end d f) := by
  cases f
  · show (addDays 1 d).Valid ∧ dateLt d (addDays 1 d)
    have e : addDays 1 d = nextDay d := rfl
    rw [e]
    exact ⟨nextDay_valid h, nextDay_lt d⟩
  · exact addMonths_valid_lt 1 h (by omega)
  · exact addMonths_valid_lt 3 h (by omega)
  · exact addYears_valid_lt 1 h (by omega)

/-! Unfolding equations of the sequencing loop. -/

theorem seqLoop_notle {fuel : Nat} {cur e : Date} {f : Freq} (h : ¬ dateLe cur e) :
    seqLoop fuel cur e f = some [] := by
  rw [seqLoop.eq_def, if_neg h]

theorem seqLoop_succ {n : Nat} {cur e : Date} {f : Freq} (h : dateLe cur e) :
    seqLoop (n + 1) cur e f =
      (if dateLe e (if dateLt e (get_period_end_date cur f) then e
          else get_period_end_date cur f)
       then some [if dateLt e (get_period_end_date cur f) then e
          else get_period_end_date cur f]
       else
         match seqLoop n (get_next_period_end
             (if dateLt e (get_period_end_date cur f) then e
              else get_period_end_date cur f) f) e f with
         | none => none
         | some rest => some ((if dateLt e (get_period_end_date cur f) then e
             else get_period_end_date cur f) :: rest)) := by
  rw [seqLoop.eq_def, if_pos h]

/-- Main loop invariant of create_folder_structure: with fuel at least the
inclusive day length of the remaining range the loop completes, and the
emitted list is nonempty, headed by the clamped period end of the current
anchor, strictly increasing, and bounded by the end date. -/
theorem seqLoop_spec (e : Date) (f : Freq) (he : e.Valid) :
    ∀ fuel : Nat, ∀ cur : Date, cur.Valid → dateLe cur e →
      e.ord + 1 ≤ cur.ord + fuel →
      ∃ L, seqLoop fuel cur e f = some L ∧ L ≠ [] ∧
        L.head? = some (if dateLt e (get_period_end_date cur f) then e
          else get_period_end_date cur f) ∧
        List.Pairwise dateLt L ∧ ∀ x, x ∈ L → dateLe x e := by
  intro fuel
  induction fuel with
  | zero =>
    intro cur hv hle hf
    exfalso
    have := ord_le_ord hv he hle
    omega
  | succ n ih =>
    intro cur hv hle hf
    have hpe := get_period_end_date_valid_ge f hv
    rw [seqLoop_succ hle]
    by_cases hclamp : dateLt e (get_period_end_date cur f)
    · simp only [if_pos hclamp]
      rw [if_pos (dateLe_refl e)]
      refine ⟨[e], rfl, by simp, rfl, by simp, ?_⟩
      intro x hx
      simp only [List.mem_singleton] at hx
      rw [hx]
      exact dateLe_refl e
    · simp only [if_neg hclamp]
      have hpele : dateLe (get_period_end_date cur f) e := dateLe_of_not_dateLt hclamp
      by_cases hbreak : dateLe e (get_period_end_date cur f)
      · rw [if_pos hbreak]
        refine ⟨[get_period_end_date cur f], rfl, by simp, rfl, by simp, ?_⟩
        intro x hx
        simp only [List.mem_singleton] at hx
        rw [hx]
        exact hpele
      · rw [if_neg hbreak]
        have hlt_pe_e : dateLt (get_period_end_date cur f) e := dateLt_of_not_dateLe hbreak
        have hnext := get_next_period_end_valid_lt f hpe.1
        by_cases hcle : dateLe (get_next_period_end (get_period_end_date cur f) f) e
        · have hford : e.ord + 1 ≤ (get_next_period_end (get_period_end_date cur f) f).ord + n := by
            have o1 := ord_le_ord hv hpe.1 hpe.2
            have o2 := ord_lt_ord hpe.1 hnext.1 hnext.2
            omega
          obtain ⟨rest, hres, hrne, hrhead, hrpw, hrle⟩ := ih _ hnext.1 hcle hford
          rw [hres]
          refine ⟨get_period_end_date cur f :: rest, rfl, by simp, rfl, ?_, ?_⟩
          · rcases rest with _ | ⟨h0, t⟩
            · exact absurd rfl hrne
            · have hh0 : h0 = (if dateLt e
                  (get_period_end_date (get_next_period_end (get_period_end_date cur f) f) f)
                  then e
                  else get_period_end_date (get_next_period_end (get_period_end_date cur f) f) f) := by
                simpa using hrhead
              have hpecur' := get_period_end_date_valid_ge f hnext.1
              have hlt_pe_h0 : dateLt (get_period_end_date cur f) h0 := by
                rw [hh0]
                by_cases hcl2 : dateLt e
                    (get_period_end_date (get_next_period_end (get_period_end_date cur f) f) f)
                · rw [if_pos hcl2]
                  exact hlt_pe_e
                · rw [if_neg hcl2]
                  exact dateLt_of_lt_of_le hnext.2 hpecur'.2
              refine List.pairwise_cons.mpr ⟨?_, hrpw⟩
              intro x hx
              rcases List.mem_cons.mp hx with hx0 | hxt
              · rw [hx0]
                exact hlt_pe_h0
              · exact dateLt_trans hlt_pe_h0 ((List.pairwise_cons.mp hrpw).1 x hxt)
          · intro x hx
            rcases List.mem_cons.mp hx with hx0 | hxt
            · rw [hx0]
              exact dateLe_of_dateLt hlt_pe_e
            · exact hrle x hxt
        · rw [seqLoop_notle hcle]
          refine ⟨[get_period_end_date cur f], rfl, by simp, rfl, by simp, ?_⟩
          intro x hx
          simp only [List.mem_singleton] at hx
          rw [hx]
          exact hpele

/-- For valid dates the canonical fuel of create_folder_structure suffices:
the result is always some list. -/
theorem create_folder_structure_some {inception_date end_date : Date} {frequency : Freq}
    (hi : inception_date.Valid) (he : end_date.Valid) :
    ∃ L, create_folder_structure inception_date end_date frequency = some L := by
  unfold create_folder_structure
  by_cases hle : dateLe inception_date end_date
  · have hord := ord_le_ord hi he hle
    obtain ⟨L, hL, _⟩ := seqLoop_spec end_date frequency he
      (end_date.ord + 1 - inception_date.ord) inception_date hi hle (by omega)
    exact ⟨L, hL⟩
  · exact ⟨[], seqLoop_notle hle⟩

/-! Claim theorems for the period sequencer. -/

/-- C1: the spec expects folders 2023-03-31, 2023-06-30 and clamped
2023-07-10 for inception 2023-01-01, end 2023-07-10, frequency quarterly;
the code emits only the first two. After emitting 2023-06-30 the next anchor
is 2023-09-30, which fails the while-guard, so the clamped final short
period is never produced even though the clamping branch exists for it. -/
theorem c1_quarterly_scenario_code_bug :
    create_folder_structure ⟨2023, 1, 1⟩ ⟨2023, 7, 10⟩ Freq.quarterly =
      some [⟨2023, 3, 31⟩, ⟨2023, 6, 30⟩] ∧
    create_folder_structure ⟨2023, 1, 1⟩ ⟨2023, 7, 10⟩ Freq.quarterly ≠
      some [⟨2023, 3, 31⟩, ⟨2023, 6, 30⟩, ⟨2023, 7, 10⟩] := by decide

/-- C2: the sequence emitted for inception 2023-01-01, end 2023-07-10,
frequency quarterly ends at 2023-06-30, strictly before the end date
2023-07-10: the last element of the sequence does not in general equal the
overall end date, the run stops short of it. -/
theorem c2_last_element_code_bug :
    ((create_folder_structure ⟨2023, 1, 1⟩ ⟨2023, 7, 10⟩ Freq.quarterly).getD
      []).getLast? = some ⟨2023, 6, 30⟩ ∧
    dateLt ⟨2023, 6, 30⟩ ⟨2023, 7, 10⟩ := by decide

/-- C5: for every valid date and every frequency the period end is at least
the date and is the last calendar day of the enclosing unit of the date: the
date itself for daily, the last day of the same month (28/29/30/31 aware,
leap Februaries included) for monthly, Mar 31 / Jun 30 / Sep 30 / Dec 31 of
the same year and quarter for quarterly, and Dec 31 of the same year for
annually. -/
theorem c5_period_end_characterization (d : Date) (h : d.Valid) :
    (∀ f : Freq, dateLe d (get_period_end_date d f)) ∧
    get_period_end_date d Freq.daily = d ∧
    get_period_end_date d Freq.monthly = ⟨d.year, d.month, daysInMonth d.year d.month⟩ ∧
    get_period_end_date d Freq.quarterly =
      (if d.month ≤ 3 then ⟨d.year, 3, 31⟩
       else if d.month ≤ 6 then ⟨d.year, 6, 30⟩
       else if d.month ≤ 9 then ⟨d.year, 9, 30⟩
       else ⟨d.year, 12, 31⟩) ∧
    get_period_end_date d Freq.annually = ⟨d.year, 12, 31⟩ :=
  ⟨fun f => (get_period_end_date_valid_ge f h).2, rfl,
    get_period_end_date_monthly h, get_period_end_date_quarterly h, rfl⟩

/-- Witness for C5 at the leap-February date 2024-02-15. -/
theorem c5_witness :
    (∀ f : Freq, dateLe ⟨2024, 2, 15⟩ (get_period_end_date ⟨2024, 2, 15⟩ f)) ∧
    get_period_end_date ⟨2024, 2, 15⟩ Freq.daily = ⟨2024, 2, 15⟩ ∧
    get_period_end_date ⟨2024, 2, 15⟩ Freq.monthly =
      ⟨(⟨2024, 2, 15⟩ : Date).year, (⟨2024, 2, 15⟩ : Date).month,
        daysInMonth (⟨2024, 2, 15⟩ : Date).year (⟨2024, 2, 15⟩ : Date).month⟩ ∧
    get_period_end_date ⟨2024, 2, 15⟩ Freq.quarterly =
      (if (⟨2024, 2, 15⟩ : Date).month ≤ 3 then ⟨(⟨2024, 2, 15⟩ : Date).year, 3, 31⟩
       else if (⟨2024, 2, 15⟩ : Date).month ≤ 6 then ⟨(⟨2024, 2, 15⟩ : Date).year, 6, 30⟩
       else if (⟨2024, 2, 15⟩ : Date).month ≤ 9 then ⟨(⟨2024, 2, 15⟩ : Date).year, 9, 30⟩
       else ⟨(⟨2024, 2, 15⟩ : Date).year, 12, 31⟩) ∧
    get_period_end_date ⟨2024, 2, 15⟩ Freq.annually = ⟨(⟨2024, 2, 15⟩ : Date).year, 12, 31⟩ :=
  c5_period_end_characterization ⟨2024, 2, 15⟩ (by decide)

/-- C6: for valid inception at most end, the emitted folder list is strictly
increasing (hence duplicate free) and its first element is the period end of
the inception date, clamped to the end date when it exceeds it. -/
theorem c6_strict_increase_first_element {inception_date end_date : Date}
    {frequency : Freq} (hi : inception_date.Valid) (he : end_date.Valid)
    (hle : dateLe inception_date end_date) :
    ∃ L, create_folder_structure inception_date end_date frequency = some L ∧
      List.Pairwise dateLt L ∧
      L.head? = some (if dateLt end_date (get_period_end_date inception_date frequency)
        then end_date else get_period_end_date inception_date frequency) := by
  unfold create_folder_structure
  have hord := ord_le_ord hi he hle
  obtain ⟨L, hL, hne, hhead, hpw, hmem⟩ := seqLoop_spec end_date frequency he
    (end_date.ord + 1 - inception_date.ord) inception_date hi hle (by omega)
  exact ⟨L, hL, hpw, hhead⟩

/-- Witness for C6 at inception 2023-01-15, end 2023-03-10, monthly. -/
theorem c6_witness :
    ∃ L, create_folder_structure ⟨2023, 1, 15⟩ ⟨2023, 3, 10⟩ Freq.monthly = some L ∧
      List.Pairwise dateLt L ∧
      L.head? = some (if dateLt ⟨2023, 3, 10⟩ (get_period_end_date ⟨2023, 1, 15⟩ Freq.monthly)
        then ⟨2023, 3, 10⟩ else get_period_end_date ⟨2023, 1, 15⟩ Freq.monthly) :=
  c6_strict_increase_first_element (by decide) (by decide) (by decide)

/-- C7: with inception equal to end, exactly the one-element sequence holding
that date is produced, for every frequency. -/
theorem c7_single_period (d : Date) (f : Freq) (h : d.Valid) :
    create_folder_structure d d f = some [d] := by
  unfold create_folder_structure
  have h1 : d.ord + 1 - d.ord = 1 := by omega
  rw [h1, seqLoop_succ (dateLe_refl d)]
  have hpe := get_period_end_date_valid_ge f h
  by_cases hc : dateLt d (get_period_end_date d f)
  · simp only [if_pos hc]
    rw [if_pos (dateLe_refl d)]
  · simp only [if_neg hc]
    have he := date_eq_of_le_of_not_lt hpe.2 hc
    rw [← he, if_pos (dateLe_refl d)]

/-- Witness for C7 at the leap day 2024-02-29. -/
theorem c7_witness :
    create_folder_structure ⟨2024, 2, 29⟩ ⟨2024, 2, 29⟩ Freq.monthly =
      some [⟨2024, 2, 29⟩] :=
  c7_single_period ⟨2024, 2, 29⟩ Freq.monthly (by decide)

/-- C10: the sequencing loop terminates: any fuel of at least the inclusive
day length of the date range (the day count of end minus the day count of
inception, plus one) makes the loop complete, so the number of iterations is
bounded by the length of the range; each iteration either breaks or strictly
advances the anchor. -/
theorem c10_termination {inception_date end_date : Date} {frequency : Freq}
    (hi : inception_date.Valid) (he : end_date.Valid) (fuel : Nat)
    (hf : end_date.ord + 1 - inception_date.ord ≤ fuel) :
    (seqLoop fuel inception_date end_date frequency).isSome = true := by
  by_cases hle : dateLe inception_date end_date
  · have hord := ord_le_ord hi he hle
    obtain ⟨L, hL, _⟩ := seqLoop_spec end_date frequency he fuel inception_date hi hle
      (by omega)
    rw [hL]
    rfl
  · rw [seqLoop_notle hle]
    rfl

/-- Witness for C10: 191 days of fuel complete the quarterly run over the
191-day range 2023-01-01 to 2023-07-10. -/
theorem c10_witness :
    (seqLoop 191 ⟨2023, 1, 1⟩ ⟨2023, 7, 10⟩ Freq.quarterly).isSome = true :=
  c10_termination (by decide) (by decide) 191 (by decide)

/-! Record filtering and run orchestration lemmas. -/

theorem filterRows_all_parse {rows : List Row} {lo hi : Date}
    (h : ∀ r ∈ rows, (rowDate r).isSome = true) :
    filterRows rows lo hi = some (rows.filter (inRange lo hi)) := by
  unfold filterRows
  rw [if_pos (List.all_eq_true.mpr h)]

theorem inRange_eq_true_iff {lo hi : Date} {r : Row} :
    inRange lo hi r = true ↔
      ∃ dt, rowDate r = some dt ∧ dateLe lo dt ∧ dateLe dt hi := by
  unfold inRange
  cases hrd : rowDate r with
  | none => simp
  | some dt => simp [Bool.and_eq_true, decide_eq_true_iff]

theorem mem_filter_inRange {rows : List Row} {lo hi : Date} {r : Row} :
    r ∈ rows.filter (inRange lo hi) ↔
      r ∈ rows ∧ ∃ dt, rowDate r = some dt ∧ dateLe lo dt ∧ dateLe dt hi := by
  rw [List.mem_filter, inRange_eq_true_iff]

/-- The per-folder loop of main, when every date field parses, completes with
no error and appends, for each folder date p, exactly the inclusive filter of
each record set from the inception date to p. -/
theorem runLoop_spec (df_ho df_tr : List Row) (inception_date : Date)
    (hho : ∀ r ∈ df_ho, (rowDate r).isSome = true)
    (htr : ∀ r ∈ df_tr, (rowDate r).isSome = true) :
    ∀ (folders : List Date) (fs : FileSystem),
      (runLoop df_ho df_tr inception_date folders fs).1 = none ∧
      ((runLoop df_ho df_tr inception_date folders fs).2).writtenPerf =
        fs.writtenPerf ++ folders.map (fun p =>
          (p, df_ho.filter (inRange inception_date p),
            df_tr.filter (inRange inception_date p))) := by
  intro folders
  induction folders with
  | nil =>
    intro fs
    simp [runLoop]
  | cons p rest ih =>
    intro fs
    have e1 : filter_and_save_csv df_ho df_tr inception_date p =
        some (df_ho.filter (inRange inception_date p),
          df_tr.filter (inRange inception_date p)) := by
      unfold filter_and_save_csv
      rw [filterRows_all_parse hho, filterRows_all_parse htr]
    simp only [runLoop, e1]
    obtain ⟨ha, hb⟩ := ih
      { fs with writtenPerf := fs.writtenPerf ++
          [(p, df_ho.filter (inRange inception_date p),
            df_tr.filter (inRange inception_date p))] }
    refine ⟨ha, ?_⟩
    rw [hb]
    simp

/-- C8: when every date field parses under MM/DD/YYYY, the per-period loop
writes, for every folder date p, exactly the rows whose date lies in the
inclusive range from the overall inception date to p (the lower bound is the
inception date for every period, never the period start); each filtered
output is a sublist of its source (original row order, rows carried whole so
non-date fields are untouched), and membership is characterized by the
inclusive range test. -/
theorem c8_cumulative_inclusive_filter (df_ho df_tr : List Row)
    (inception_date : Date) (folders : List Date) (fs : FileSystem)
    (hho : ∀ r ∈ df_ho, (rowDate r).isSome = true)
    (htr : ∀ r ∈ df_tr, (rowDate r).isSome = true) :
    (runLoop df_ho df_tr inception_date folders fs).1 = none ∧
    ((runLoop df_ho df_tr inception_date folders fs).2).writtenPerf =
      fs.writtenPerf ++ folders.map (fun p =>
        (p, df_ho.filter (inRange inception_date p),
          df_tr.filter (inRange inception_date p))) ∧
    (∀ p : Date, (df_ho.filter (inRange inception_date p)).Sublist df_ho ∧
      (df_tr.filter (inRange inception_date p)).Sublist df_tr) ∧
    (∀ p : Date, ∀ r : Row, r ∈ df_ho.filter (inRange inception_date p) ↔
      r ∈ df_ho ∧ ∃ dt, rowDate r = some dt ∧
        dateLe inception_date dt ∧ dateLe dt p) ∧
    (∀ p : Date, ∀ r : Row, r ∈ df_tr.filter (inRange inception_date p) ↔
      r ∈ df_tr ∧ ∃ dt, rowDate r = some dt ∧
        dateLe inception_date dt ∧ dateLe dt p) := by
  obtain ⟨h1, h2⟩ := runLoop_spec df_ho df_tr inception_date hho htr folders fs
  exact ⟨h1, h2, fun p => ⟨List.filter_sublist _, List.filter_sublist _⟩,
    fun p r => mem_filter_inRange, fun p r => mem_filter_inRange⟩

/-- Witness for C8 on a one-row holdings set and a one-row transactions set. -/
theorem c8_witness :
    (runLoop [⟨"03/15/2023".toList, ["100"]⟩] [⟨"01/02/2023".toList, ["t"]⟩]
      ⟨2023, 1, 1⟩ [⟨2023, 3, 31⟩] ⟨true, true, [], [], [], [], []⟩).1 = none ∧
    ((runLoop [⟨"03/15/2023".toList, ["100"]⟩] [⟨"01/02/2023".toList, ["t"]⟩]
      ⟨2023, 1, 1⟩ [⟨2023, 3, 31⟩] ⟨true, true, [], [], [], [], []⟩).2).writtenPerf =
      (⟨true, true, [], [], [], [], []⟩ : FileSystem).writtenPerf ++
        ([⟨2023, 3, 31⟩] : List Date).map (fun p =>
          (p, ([⟨"03/15/2023".toList, ["100"]⟩] : List Row).filter
            (inRange ⟨2023, 1, 1⟩ p),
          ([⟨"01/02/2023".toList, ["t"]⟩] : List Row).filter
            (inRange ⟨2023, 1, 1⟩ p))) ∧
    (∀ p : Date, (([⟨"03/15/2023".toList, ["100"]⟩] : List Row).filter
        (inRange ⟨2023, 1, 1⟩ p)).Sublist [⟨"03/15/2023".toList, ["100"]⟩] ∧
      (([⟨"01/02/2023".toList, ["t"]⟩] : List Row).filter
        (inRange ⟨2023, 1, 1⟩ p)).Sublist [⟨"01/02/2023".toList, ["t"]⟩]) ∧
    (∀ p : Date, ∀ r : Row, r ∈ ([⟨"03/15/2023".toList, ["100"]⟩] : List Row).filter
        (inRange ⟨2023, 1, 1⟩ p) ↔
      r ∈ ([⟨"03/15/2023".toList, ["100"]⟩] : List Row) ∧ ∃ dt, rowDate r = some dt ∧
        dateLe ⟨2023, 1, 1⟩ dt ∧ dateLe dt p) ∧
    (∀ p : Date, ∀ r : Row, r ∈ ([⟨"01/02/2023".toList, ["t"]⟩] : List Row).filter
        (inRange ⟨2023, 1, 1⟩ p) ↔
      r ∈ ([⟨"01/02/2023".toList, ["t"]⟩] : List Row) ∧ ∃ dt, rowDate r = some dt ∧
        dateLe ⟨2023, 1, 1⟩ dt ∧ dateLe dt p) :=
  c8_cumulative_inclusive_filter _ _ _ _ _ (by decide) (by decide)

/-- C3: with the end date 2023-01-01 strictly before the inception date
2023-07-10 and both source files present, the embedded run completes with
outcome none (success, no error raised) and creates no period folders: the
empty-range configuration error is silently swallowed rather than surfaced. -/
theorem c3_inverted_range_code_bug :
    runMain ⟨2023, 7, 10⟩ ⟨2023, 1, 1⟩ Freq.daily
      ⟨true, true, [], [], [], [], []⟩ =
      some (none, ⟨true, true, [], [], [], [], []⟩) ∧
    dateLt ⟨2023, 1, 1⟩ ⟨2023, 7, 10⟩ := by decide

/-- C4 counterexample: with Holdings.csv absent, the run does abort with a
fatal error, but only after create_folder_structure has already created the
period folder 2023-01-01 on disk: folder effects do occur before the failure
is raised, contradicting the claim as stated. -/
theorem c4_counterexample :
    runMain ⟨2023, 1, 1⟩ ⟨2023, 1, 1⟩ Freq.daily
      ⟨false, true, [], [], [], [], []⟩ =
      some (some "Holdings.csv not found",
        ⟨false, true, [], [], [⟨2023, 1, 1⟩], [], []⟩) ∧
    ([⟨2023, 1, 1⟩] : List Date) ≠ [] := by decide

/-- C4 amended: if either required source CSV is absent, the run fails with a
fatal error before any period is processed — no per-period output is written
and no auxiliary copy happens (the final state differs from the initial one
only in the period folders) — but the period folder structure has already
been created when the failure is raised. -/
theorem c4_missing_input_aborts {inception_date end_date : Date} {frequency : Freq}
    (fs : FileSystem)
    (hmiss : fs.holdingsPresent = false ∨ fs.transactionsPresent = false)
    (hi : inception_date.Valid) (he : end_date.Valid) :
    ∃ msg folders,
      create_folder_structure inception_date end_date frequency = some folders ∧
      runMain inception_date end_date frequency fs =
        some (some msg,
          { fs with createdFolders := fs.createdFolders ++ folders }) := by
  obtain ⟨folders, hf⟩ := create_folder_structure_some hi he
  unfold runMain
  rw [hf]
  rcases hmiss with hm | hm
  · exact ⟨"Holdings.csv not found", folders, rfl, by simp [hm]⟩
  · by_cases hh : fs.holdingsPresent = true
    · exact ⟨"Transactions.csv not found", folders, rfl, by simp [hm, hh]⟩
    · have hh2 : fs.holdingsPresent = false := by simpa using hh
      exact ⟨"Holdings.csv not found", folders, rfl, by simp [hh2]⟩

/-! Heap-level lemmas for the aliasing behaviour of filter_and_save_csv. -/

/-- Computation of one heap-level filter_and_save_csv call: the two source
tables are untouched, the outputs are a pure function of the two source
tables, and the heap grows by exactly the two deepcopies. -/
theorem filter_and_save_csv_st_facts (h : List DfTable) (hoRef trRef : Nat)
    (i p : Date) (hho : hoRef < h.length) (htr : trRef < h.length) :
    (filter_and_save_csv_st h hoRef trRef i p).1.getD hoRef [] = h.getD hoRef [] ∧
    (filter_and_save_csv_st h hoRef trRef i p).1.getD trRef [] = h.getD trRef [] ∧
    (filter_and_save_csv_st h hoRef trRef i p).2 =
      (((withDatetime (h.getD hoRef [])).filter (keepCell i p)).map (fun c => c.1),
       ((withDatetime (h.getD trRef [])).filter (keepCell i p)).map (fun c => c.1)) ∧
    (filter_and_save_csv_st h hoRef trRef i p).1.length = h.length + 2 := by
  simp only [filter_and_save_csv_st]
  have e0 : (h ++ [h.getD hoRef []]).getD trRef [] = h.getD trRef [] := by
    rw [List.getD_eq_getElem?_getD, List.getElem?_append_left htr,
      ← List.getD_eq_getElem?_getD]
  rw [e0]
  have e1 : ((h ++ [h.getD hoRef []]) ++ [h.getD trRef []]).getD h.length [] =
      h.getD hoRef [] := by
    rw [List.getD_eq_getElem?_getD,
      List.getElem?_append_left (by simp), List.getElem?_concat_length]
    rfl
  rw [e1]
  have hlen1 : (h ++ [h.getD hoRef []]).length = h.length + 1 := by simp
  rw [hlen1]
  have e2 : ((((h ++ [h.getD hoRef []]) ++ [h.getD trRef []]).set h.length
      (withDatetime (h.getD hoRef []))).getD (h.length + 1) []) = h.getD trRef [] := by
    rw [List.getD_eq_getElem?_getD, List.getElem?_set_ne (by omega)]
    have hl : h.length + 1 = ((h ++ [h.getD hoRef []])).length := by simp
    rw [hl, List.getElem?_concat_length]
    rfl
  rw [e2]
  refine ⟨?_, ?_, ?_, ?_⟩
  · rw [List.getD_eq_getElem?_getD, List.getElem?_set_ne (by omega),
      List.getElem?_set_ne (by omega), List.getElem?_append_left (by simp; omega),
      List.getElem?_append_left hho, ← List.getD_eq_getElem?_getD]
  · rw [List.getD_eq_getElem?_getD, List.getElem?_set_ne (by omega),
      List.getElem?_set_ne (by omega), List.getElem?_append_left (by simp; omega),
      List.getElem?_append_left htr, ← List.getD_eq_getElem?_getD]
  · have c1 : ((((h ++ [h.getD hoRef []]) ++ [h.getD trRef []]).set h.length
        (withDatetime (h.getD hoRef []))).set (h.length + 1)
        (withDatetime (h.getD trRef []))).getD h.length [] =
        withDatetime (h.getD hoRef []) := by
      rw [List.getD_eq_getElem?_getD, List.getElem?_set_ne (by omega),
        List.getElem?_set_eq_of_lt _ (by simp)]
      rfl
    have c2 : ((((h ++ [h.getD hoRef []]) ++ [h.getD trRef []]).set h.length
        (withDatetime (h.getD hoRef []))).set (h.length + 1)
        (withDatetime (h.getD trRef []))).getD (h.length + 1) [] =
        withDatetime (h.getD trRef []) := by
      rw [List.getD_eq_getElem?_getD, List.getElem?_set_eq_of_lt _ (by simp)]
      rfl
    rw [c1, c2]
  · simp

/-- C9: the heap-level filter_and_save_csv never mutates the two source
dataframes (it deepcopies them and mutates only the copies): after a run for
any period both sources are unchanged in the heap, and consequently a second
period filtered after a first one produces exactly what it would have
produced on the pristine heap — every period operates on the same original
data. -/
theorem c9_filter_never_mutates_sources (h : List DfTable) (hoRef trRef : Nat)
    (i p1 p2 : Date) (hho : hoRef < h.length) (htr : trRef < h.length) :
    (filter_and_save_csv_st h hoRef trRef i p1).1.getD hoRef [] = h.getD hoRef [] ∧
    (filter_and_save_csv_st h hoRef trRef i p1).1.getD trRef [] = h.getD trRef [] ∧
    (filter_and_save_csv_st ((filter_and_save_csv_st h hoRef trRef i p1).1)
      hoRef trRef i p2).2 = (filter_and_save_csv_st h hoRef trRef i p2).2 := by
  obtain ⟨a1, a2, a3, a4⟩ := filter_and_save_csv_st_facts h hoRef trRef i p1 hho htr
  obtain ⟨b1, b2, b3, b4⟩ := filter_and_save_csv_st_facts h hoRef trRef i p2 hho htr
  obtain ⟨d1, d2, d3, d4⟩ := filter_and_save_csv_st_facts
    ((filter_and_save_csv_st h hoRef trRef i p1).1) hoRef trRef i p2
    (by omega) (by omega)
  refine ⟨a1, a2, ?_⟩
  rw [d3, a1, a2, b3]

/-- Witness for C9 on a two-table heap holding one holdings row. -/
theorem c9_witness :
    (filter_and_save_csv_st
        [[((⟨"03/15/2023".toList, ["100"]⟩ : Row), (none : Option Date))], []]
        0 1 ⟨2023, 1, 1⟩ ⟨2023, 3, 31⟩).1.getD 0 [] =
      ([[((⟨"03/15/2023".toList, ["100"]⟩ : Row), (none : Option Date))],
        []] : List DfTable).getD 0 [] ∧
    (filter_and_save_csv_st
        [[((⟨"03/15/2023".toList, ["100"]⟩ : Row), (none : Option Date))], []]
        0 1 ⟨2023, 1, 1⟩ ⟨2023, 3, 31⟩).1.getD 1 [] =
      ([[((⟨"03/15/2023".toList, ["100"]⟩ : Row), (none : Option Date))],
        []] : List DfTable).getD 1 [] ∧
    (filter_and_save_csv_st
        (filter_and_save_csv_st
          [[((⟨"03/15/2023".toList, ["100"]⟩ : Row), (none : Option Date))], []]
          0 1 ⟨2023, 1, 1⟩ ⟨2023, 3, 31⟩).1
        0 1 ⟨2023, 1, 1⟩ ⟨2023, 6, 30⟩).2 =
      (filter_and_save_csv_st
        [[((⟨"03/15/2023".toList, ["100"]⟩ : Row), (none : Option Date))], []]
        0 1 ⟨2023, 1, 1⟩ ⟨2023, 6, 30⟩).2 :=
  c9_filter_never_mutates_sources _ 0 1 ⟨2023, 1, 1⟩ ⟨2023, 3, 31⟩ ⟨2023, 6, 30⟩
    (by decide) (by decide)

/-- Witness for C4 with Holdings.csv absent over the two-day range
2023-01-01 to 2023-01-02. -/
theorem c4_witness :
    ∃ msg folders,
      create_folder_structure ⟨2023, 1, 1⟩ ⟨2023, 1, 2⟩ Freq.daily = some folders ∧
      runMain ⟨2023, 1, 1⟩ ⟨2023, 1, 2⟩ Freq.daily
        (⟨false, true, [], [], [], [], []⟩ : FileSystem) =
        some (some msg,
          { (⟨false, true, [], [], [], [], []⟩ : FileSystem) with
            createdFolders :=
              (⟨false, true, [], [], [], [], []⟩ : FileSystem).createdFolders ++
                folders }) :=
  c4_missing_input_aborts _ (Or.inl rfl) (by decide) (by decide)

end AWA
